import Mathlib

/-!
Verification of the gift-eligibility and pricing engine of the purensol
order-form repository.

The TypeScript source is shallowly embedded: strings are Lean `String`s
(worked on as `List Char`), JavaScript regular-expression searches are
embedded as explicit left-to-right scanning functions (the patterns used by
the source never need backtracking inside a character class, so greedy
scanning is faithful), `Map` lookups become `Option`-valued functions, and
JavaScript's stable `Array.prototype.sort` becomes a stable insertion sort
(stable sorting under a fixed comparator has a unique result, so any stable
sort embeds it faithfully).

Embedded source locations:
  * `getThresholds`            — src/components/gifthreshold (threshold parser)
  * `calculateMaxGiftSelections` — src/components/FormHeader.tsx /
                                   src/components/gifts/useGiftSection
  * `enforceGiftSelections`    — src/components/DynamicForm.tsx (gift
                                   enforcement effects)
  * `extractPrice`             — src/lib/utils / src/components/DynamicForm.tsx
  * `totalExcludingGift`       — src/components/DynamicForm.tsx (order total
                                   aggregator)
  * `questionPriceLookup`, `firstGiftQuestionId`
                               — src/components/DynamicForm.tsx (price index,
                                   gift-section discovery)
-/

namespace Purensol

/-- JS whitespace class `\s`: ASCII whitespace, NBSP, and the Unicode
space separators that JavaScript's regexp engine includes. -/
def isJsSpace (c : Char) : Bool :=
  c = ' ' || c = '\t' || c = '\n' || c = '\r' ||
  c = '\x0b' || c = '\x0c' || c = '\u00a0' || c = '\u1680' ||
  ('\u2000' ≤ c && c ≤ '\u200a') || c = '\u2028' || c = '\u2029' ||
  c = '\u202f' || c = '\u205f' || c = '\u3000' || c = '\ufeff'

/-- Longest digit run at the head of the character list (regex `\d+`, greedy). -/
def takeDigits (cs : List Char) : List Char := cs.takeWhile Char.isDigit

/-- Remainder after the digit run at the head. -/
def dropDigits (cs : List Char) : List Char := cs.dropWhile Char.isDigit

/-- Remainder after the whitespace run at the head (regex `\s*`, greedy). -/
def dropSpaces (cs : List Char) : List Char := cs.dropWhile isJsSpace

/-- `parseInt(·, 10)` on a pure digit string. -/
def digitsToNat (cs : List Char) : Nat :=
  cs.foldl (fun a c => 10 * a + (c.toNat - 48)) 0

/-- One parsed `{amount, gifts}` threshold pair. -/
structure Threshold where
  amount : Nat
  gifts : Nat
deriving DecidableEq

/-! ## Threshold parser (`getThresholds`) -/

/-- The list separators the parser splits on: `、`, ASCII `,`, and `，`. -/
def isSepChar (c : Char) : Bool := c = '、' || c = ',' || c = '，'

/-- `label.split(/[、,，]/)`: split at every separator, keeping empty
segments, exactly as JavaScript `String.split` does. -/
def splitOnSeps : List Char → List (List Char)
  | [] => [[]]
  | c :: cs =>
    if isSepChar c then [] :: splitOnSeps cs
    else
      match splitOnSeps cs with
      | [] => [[c]]
      | s :: ss => (c :: s) :: ss

/-- Match `\s*(\d+)\s*\*\s*(\d+)` at the start of the input (the tail of the
marked pattern, used right after a `滿` character). -/
def numPairAt (cs : List Char) : Option (Nat × Nat) :=
  let cs1 := dropSpaces cs
  let ds := takeDigits cs1
  if ds.isEmpty then none
  else
    match dropSpaces (dropDigits cs1) with
    | '*' :: rest =>
      let ds2 := takeDigits (dropSpaces rest)
      if ds2.isEmpty then none else some (digitsToNat ds, digitsToNat ds2)
    | _ => none

/-- First (leftmost) match of `滿\s*(\d+)\s*\*\s*(\d+)` in the segment. -/
def findMarked : List Char → Option (Nat × Nat)
  | [] => none
  | c :: cs =>
    if c = '滿' then
      match numPairAt cs with
      | some r => some r
      | none => findMarked cs
    else findMarked cs

/-- Match `(\d+)\s*\*\s*(\d+)` at the start of the input (fails unless the
head is a digit). -/
def bareAt (cs : List Char) : Option (Nat × Nat) :=
  let ds := takeDigits cs
  if ds.isEmpty then none
  else
    match dropSpaces (dropDigits cs) with
    | '*' :: rest =>
      let ds2 := takeDigits (dropSpaces rest)
      if ds2.isEmpty then none else some (digitsToNat ds, digitsToNat ds2)
    | _ => none

/-- First (leftmost) match of `(\d+)\s*\*\s*(\d+)` in the segment. -/
def findBare : List Char → Option (Nat × Nat)
  | [] => none
  | c :: cs =>
    match bareAt (c :: cs) with
    | some r => some r
    | none => findBare cs

/-- Per-segment matching: try the `滿`-marked pattern first, then the bare
`integer*integer` pattern. -/
def segMatch (seg : List Char) : Option (Nat × Nat) :=
  match findMarked seg with
  | some r => some r
  | none => findBare seg

/-- The threshold a segment contributes: the matched pair, kept only when
both integers are strictly positive. -/
def parseSegment (seg : List Char) : Option Threshold :=
  match segMatch seg with
  | some (a, g) => if 0 < a && 0 < g then some ⟨a, g⟩ else none
  | none => none

/-- Ordering used by the final sort: ascending by amount. -/
def amountLE (a b : Threshold) : Prop := a.amount ≤ b.amount

instance : DecidableRel amountLE :=
  fun a b => inferInstanceAs (Decidable (a.amount ≤ b.amount))

/-- Stable ordered insert for `sortPairs`: the new element goes after every
element with a strictly smaller amount and before the first element whose
amount is not smaller, so earlier-collected pairs stay before later ones on
equal amounts. -/
def insort (x : Threshold) : List Threshold → List Threshold
  | [] => [x]
  | y :: ys => if y.amount < x.amount then y :: insort x ys else x :: y :: ys

/-- `thresholds.sort((a, b) => a.amount - b.amount)`: JavaScript's sort is
stable, and a stable sort under a fixed comparator is unique, so stable
insertion sort is a faithful embedding. -/
def sortPairs : List Threshold → List Threshold
  | [] => []
  | x :: xs => insort x (sortPairs xs)

/-- Collect every segment's threshold and sort ascending by amount. -/
def thresholdsOfParts (parts : List (List Char)) : List Threshold :=
  sortPairs (parts.filterMap parseSegment)

/-- `getThresholds(label)`: `[]` for an absent or empty label, otherwise
split on the separators, parse each segment, and sort by amount. -/
def getThresholds : Option String → List Threshold
  | none => []
  | some s => if s = "" then [] else thresholdsOfParts (splitOnSeps s.data)

/-! ## Gift-eligibility (`calculateMaxGiftSelections`, enforcement) -/

/-- `calculateMaxGiftSelections(totalExcludingGift, thresholds)`: scan the
threshold array from its last index down and return the gift count of the
first entry whose amount the total meets; `0` for an empty array or when no
entry qualifies.  The downward index loop is embedded as `find?` on the
reversed list. -/
def calculateMaxGiftSelections (totalExcludingGift : Nat)
    (thresholds : List Threshold) : Nat :=
  if thresholds.isEmpty then 0
  else
    match thresholds.reverse.find? (fun t => t.amount ≤ totalExcludingGift) with
    | some t => t.gifts
    | none => 0

/-- The enforcement step of the gift-limit effects: when the current
selection array is longer than the allowed maximum, replace it by
`slice(0, max)` (its first `max` entries); otherwise leave it unchanged. -/
def enforceGiftSelections (currentSelections : List String)
    (maxAllowed : Nat) : List String :=
  if maxAllowed < currentSelections.length then currentSelections.take maxAllowed
  else currentSelections

/-! ## Price extractor (`extractPrice`) -/

/-- Whether the head of the character list is a decimal digit. -/
def headDigit : List Char → Bool
  | [] => false
  | c :: _ => c.isDigit

/-- First (leftmost) match of `\$(\d+)`: scan for a `$` immediately followed
by a digit and return the value of the maximal digit run after it. -/
def firstDollarNat : List Char → Option Nat
  | [] => none
  | c :: cs =>
    if c = '$' && headDigit cs then some (digitsToNat (takeDigits cs))
    else firstDollarNat cs

/-- `extractPrice(title)`: `null` for an absent or empty title, otherwise
the first `\$(\d+)` match parsed as an integer, or `null` when there is
none. -/
def extractPrice : Option String → Option Nat
  | none => none
  | some s => if s = "" then none else firstDollarNat s.data

/-- Whether the text contains a `$` immediately followed by a digit
(the condition for `extractPrice` to find a price). -/
def hasDollarDigit : List Char → Bool
  | [] => false
  | c :: cs => (c = '$' && headDigit cs) || hasDollarDigit cs

/-! ## Field identifiers (`/^question_(.+?)(?:_row_\d+_col_\d+)?$/`) -/

/-- Strip an expected literal from the front of the input, or fail. -/
def dropLit : List Char → List Char → Option (List Char)
  | [], cs => some cs
  | _ :: _, [] => none
  | l :: ls, c :: cs => if c = l then dropLit ls cs else none

/-- Whether the input is exactly `_row_<digits>_col_<digits>` (the optional
anchored tail of the field-identifier pattern). -/
def isRowColTail (cs : List Char) : Bool :=
  match dropLit "_row_".data cs with
  | none => false
  | some cs1 =>
    if (takeDigits cs1).isEmpty then false
    else
      match dropLit "_col_".data (dropDigits cs1) with
      | none => false
      | some cs2 => !(takeDigits cs2).isEmpty && (dropDigits cs2).isEmpty

/-- JS `.` without the dotall flag: any character except a line
terminator. -/
def isDotChar (c : Char) : Bool :=
  !(c = '\n' || c = '\r' || c = '\u2028' || c = '\u2029')

/-- Lazy capture for `(.+?)`: having captured `acc`, stop at the first
boundary where the remaining input is empty (optional tail absent) or is
exactly the `_row_…_col_…` tail; otherwise consume one more `.`-matchable
character. -/
def captureLoop : List Char → List Char → Option (List Char)
  | acc, [] => some acc
  | acc, c :: cs =>
    if isRowColTail (c :: cs) then some acc
    else if isDotChar c then captureLoop (acc ++ [c]) cs
    else none

/-- The question id parsed out of a field name by
`/^question_(.+?)(?:_row_\d+_col_\d+)?$/`, or `none` when the name does not
match. -/
def parsedQuestionId (fieldName : String) : Option String :=
  match dropLit "question_".data fieldName.data with
  | none => none
  | some [] => none
  | some (c :: cs) =>
    if isDotChar c then (captureLoop [c] cs).map (fun l => String.mk l)
    else none

/-! ## Order total aggregator (`totalExcludingGift`) -/

/-- A react-hook-form field value as the aggregator sees it: a string, an
array of selected option strings, a number, or a boolean. -/
inductive FieldValue where
  | str (s : String)
  | arr (l : List String)
  | num (n : Int)
  | boolean (b : Bool)

/-- `value.trim() !== ""`: the string has at least one non-whitespace
character. -/
def hasNonSpace (s : String) : Bool := s.data.any (fun c => !isJsSpace c)

/-- The per-value pricing rule: the option-price-map price of the value
itself when present, else the question-level price when present, else 0. -/
def perValuePrice (qPrice : Option Nat) (oPrice : String → Option Nat)
    (v : String) : Nat :=
  match oPrice v with
  | some p => p
  | none => qPrice.getD 0

/-- Static inputs of the aggregator: the two price indices and the two
gift-section question ids (`null` when the section was not found). -/
structure AggContext where
  qPrice : String → Option Nat
  oPrice : String → Option Nat
  firstGift : Option String
  secondGift : Option String

/-- What one field value adds to the running sum, mirroring the
array / truthy-string / number-or-boolean branches of the source. -/
def valueContrib (qPrice : Option Nat) (oPrice : String → Option Nat) :
    FieldValue → Nat
  | .arr l =>
    (l.map (fun v => if hasNonSpace v then perValuePrice qPrice oPrice v else 0)).sum
  | .str s =>
    if s ≠ "" then
      if hasNonSpace s then perValuePrice qPrice oPrice s else 0
    else 0
  | .num n => if n ≠ 0 then qPrice.getD 0 else 0
  | .boolean b => if b then qPrice.getD 0 else 0

/-- What one answered field adds to the total: 0 when the field name does
not parse, 0 when the parsed question id is a gift-section id, otherwise
the value's contribution under the per-value rule. -/
def fieldContrib (ctx : AggContext) (fieldName : String) (v : FieldValue) : Nat :=
  match parsedQuestionId fieldName with
  | none => 0
  | some qid =>
    if ctx.firstGift = some qid ∨ ctx.secondGift = some qid then 0
    else valueContrib (ctx.qPrice qid) ctx.oPrice v

/-- `totalExcludingGift`: fold the per-field contributions over the current
answer set (`Object.entries` enumerates entries in insertion order, embedded
as a list). -/
def totalExcludingGift (ctx : AggContext)
    (answers : List (String × FieldValue)) : Nat :=
  answers.foldl (fun sum e => sum + fieldContrib ctx e.1 e.2) 0

/-! ## Schema-derived indices (price map, gift-section discovery) -/

/-- A question of the form schema (only its id matters to the indices). -/
structure FormQuestion where
  questionId : String

/-- A schema item: `title`, the question of `questionItem` (when present),
and the questions of `questionGroupItem` (when present). -/
structure FormItem where
  title : Option String
  questionItem : Option FormQuestion
  groupQuestions : Option (List FormQuestion)

/-- The `(questionId, price)` pairs inserted into `questionPriceMap`, in
insertion order: every item whose title carries a price maps its question
(or all its group questions) to that price. -/
def questionPricePairs (items : List FormItem) : List (String × Nat) :=
  items.foldl (fun acc it =>
    match extractPrice it.title with
    | none => acc
    | some price =>
      match it.questionItem with
      | some q => acc ++ [(q.questionId, price)]
      | none =>
        match it.groupQuestions with
        | some qs => acc ++ qs.map (fun q => (q.questionId, price))
        | none => acc) []

/-- `questionPriceMap.get(qid)`: the last inserted price for the id (later
`Map.set` calls overwrite earlier ones). -/
def questionPriceLookup (items : List FormItem) (qid : String) : Option Nat :=
  ((questionPricePairs items).reverse.find? (fun e => e.1 = qid)).map (fun e => e.2)

/-- `pat.isPrefixOf cs` on raw character lists (JS `String.startsWith`). -/
def leadsWith : List Char → List Char → Bool
  | [], _ => true
  | _ :: _, [] => false
  | p :: ps, c :: cs => p = c && leadsWith ps cs

/-- The first-gift-section item: the first item whose title starts with
`✦第一階段滿額贈` or `第一階段滿額贈`. -/
def firstGiftItem (items : List FormItem) : Option FormItem :=
  items.find? (fun it =>
    match it.title with
    | some t => leadsWith "✦第一階段滿額贈".data t.data ||
                leadsWith "第一階段滿額贈".data t.data
    | none => false)

/-- The first gift section's question id (`null` when the section or its
question is missing). -/
def firstGiftQuestionId (items : List FormItem) : Option String :=
  (firstGiftItem items).bind (fun it => it.questionItem.map (fun q => q.questionId))

/-! ## Demo data used by the concrete parts of the theorems -/

/-- The two-tier threshold list of the specification's examples. -/
def demoThresholds : List Threshold := [⟨2500, 1⟩, ⟨5000, 2⟩]

/-- A small aggregator context: question `q1` priced 100 through its title,
one priced option label, and `g1` as the first gift section's question id. -/
def demoCtx : AggContext :=
  ⟨fun q => if q = "q1" then some 100 else none,
   fun v => if v = "$250 pendant" then some 250 else none,
   some "g1", none⟩

/-- A one-item schema whose gift-section title carries a `$500` pattern. -/
def giftDemoItems : List FormItem :=
  [⟨some "第一階段滿額贈 $500 滿2500*1", some ⟨"g1"⟩, none⟩]

/-! ## General lemmas about the aggregator fold -/

/-- The aggregator fold is the sum of the per-field contributions. -/
theorem foldl_add_map_sum {α : Type} (f : α → Nat) (l : List α) (n : Nat) :
    l.foldl (fun acc x => acc + f x) n = n + (l.map f).sum := by
  induction l generalizing n with
  | nil => simp
  | cons x xs ih => simp [List.foldl, ih, Nat.add_assoc]

/-- `totalExcludingGift` as a sum over the answer entries. -/
theorem totalExcludingGift_eq_sum (ctx : AggContext)
    (answers : List (String × FieldValue)) :
    totalExcludingGift ctx answers =
      (answers.map (fun e => fieldContrib ctx e.1 e.2)).sum := by
  simpa using foldl_add_map_sum (fun e => fieldContrib ctx e.1 e.2) answers 0

/-- An entry whose contribution is zero can be removed from the answer set
without changing the total; the remaining fields still count. -/
theorem totalExcludingGift_erase_zero (ctx : AggContext)
    (pre post : List (String × FieldValue)) (e : String × FieldValue)
    (h : fieldContrib ctx e.1 e.2 = 0) :
    totalExcludingGift ctx (pre ++ e :: post) =
      totalExcludingGift ctx (pre ++ post) := by
  simp [totalExcludingGift_eq_sum, h]

/-! ## Stable-sort lemmas for the threshold parser -/

/-- `insort` inserts its element: the result is a permutation of consing it. -/
theorem insort_perm (x : Threshold) (l : List Threshold) :
    (insort x l).Perm (x :: l) := by
  induction l with
  | nil => simp [insort]
  | cons y ys ih =>
    by_cases h : y.amount < x.amount
    · simp only [insort, if_pos h]
      exact (ih.cons y).trans (List.Perm.swap x y ys)
    · simp [insort, h]

/-- `insort` preserves sortedness by amount. -/
theorem insort_pairwise (x : Threshold) (l : List Threshold)
    (h : l.Pairwise amountLE) : (insort x l).Pairwise amountLE := by
  induction l with
  | nil => simp [insort, amountLE]
  | cons y ys ih =>
    rcases List.pairwise_cons.mp h with ⟨hy, hys⟩
    by_cases hcmp : y.amount < x.amount
    · simp only [insort, if_pos hcmp]
      refine List.pairwise_cons.mpr ⟨?_, ih hys⟩
      intro z hz
      rcases List.mem_cons.mp ((insort_perm x ys).subset hz) with rfl | hz2
      · exact Nat.le_of_lt hcmp
      · exact hy z hz2
    · simp only [insort, if_neg hcmp]
      refine List.pairwise_cons.mpr ⟨?_, h⟩
      intro z hz
      rcases List.mem_cons.mp hz with rfl | hz2
      · exact Nat.le_of_not_lt hcmp
      · exact Nat.le_trans (Nat.le_of_not_lt hcmp) (hy z hz2)

/-- Inserting an element with the filtered amount puts it in front of the
other elements with that amount: everything `insort` passes over has a
strictly smaller amount. -/
theorem insort_filter_pos (x : Threshold) (l : List Threshold) (a : Nat)
    (hx : x.amount = a) :
    (insort x l).filter (fun t => t.amount == a) =
      x :: l.filter (fun t => t.amount == a) := by
  induction l with
  | nil => simp [insort, hx]
  | cons y ys ih =>
    by_cases h : y.amount < x.amount
    · have hy : (y.amount == a) = false := by
        simp only [beq_eq_false_iff_ne]
        omega
      simp only [insort, if_pos h, List.filter_cons, hy, ih]
      simp
    · have hxa : (x.amount == a) = true := by simp [hx]
      simp only [insort, if_neg h, List.filter_cons, hxa]
      simp

/-- Inserting an element with a different amount leaves the filtered
subsequence untouched. -/
theorem insort_filter_neg (x : Threshold) (l : List Threshold) (a : Nat)
    (hx : x.amount ≠ a) :
    (insort x l).filter (fun t => t.amount == a) =
      l.filter (fun t => t.amount == a) := by
  induction l with
  | nil => simp [insort, hx]
  | cons y ys ih =>
    by_cases h : y.amount < x.amount
    · simp [insort, h, List.filter_cons, ih]
    · simp [insort, h, List.filter_cons, hx]

/-- `sortPairs` permutes its input. -/
theorem sortPairs_perm (l : List Threshold) : (sortPairs l).Perm l := by
  induction l with
  | nil => simp [sortPairs]
  | cons x xs ih => exact (insort_perm x (sortPairs xs)).trans (ih.cons x)

/-- `sortPairs` sorts ascending by amount. -/
theorem sortPairs_pairwise (l : List Threshold) :
    (sortPairs l).Pairwise amountLE := by
  induction l with
  | nil => simp [sortPairs]
  | cons x xs ih => exact insort_pairwise x (sortPairs xs) ih

/-- Stability of `sortPairs`: the elements of any fixed amount appear in the
sorted output in exactly their input order. -/
theorem sortPairs_filter (l : List Threshold) (a : Nat) :
    (sortPairs l).filter (fun t => t.amount == a) =
      l.filter (fun t => t.amount == a) := by
  induction l with
  | nil => rfl
  | cons x xs ih =>
    by_cases hx : x.amount = a
    · rw [sortPairs, insort_filter_pos x _ a hx, ih, List.filter_cons]
      simp [hx]
    · rw [sortPairs, insort_filter_neg x _ a hx, ih, List.filter_cons]
      simp [hx]

/-! ## Lemmas about the price extractor scan -/

/-- The greedy digit run over a digit block followed by a non-digit (or
nothing) is exactly the block. -/
theorem takeDigits_append_of_digits (ds rest : List Char)
    (hdig : ∀ c ∈ ds, c.isDigit) (hrest : ∀ c ∈ rest.take 1, ¬ c.isDigit) :
    takeDigits (ds ++ rest) = ds := by
  induction ds with
  | nil =>
    cases rest with
    | nil => rfl
    | cons c cs =>
      have hc : c.isDigit = false := by
        simpa using hrest c (by simp)
      simp [takeDigits, List.takeWhile_cons, hc]
  | cons d ds2 ih =>
    have hd : d.isDigit := hdig d (by simp)
    have ih2 := ih (fun c hc => hdig c (List.mem_cons_of_mem d hc))
    simp [takeDigits, List.takeWhile_cons, hd] at ih2 ⊢
    exact ih2

/-- Without a `$`-digit occurrence the scan finds nothing. -/
theorem firstDollarNat_eq_none (cs : List Char)
    (h : hasDollarDigit cs = false) : firstDollarNat cs = none := by
  induction cs with
  | nil => rfl
  | cons c cs ih =>
    simp only [hasDollarDigit, Bool.or_eq_false_iff] at h
    simp [firstDollarNat, h.1, ih h.2]

/-- The head of a list does not depend on what follows its first `cons`. -/
theorem headDigit_append_cons (pre : List Char) (c : Char) (l₁ l₂ : List Char) :
    headDigit (pre ++ c :: l₁) = headDigit (pre ++ c :: l₂) := by
  cases pre <;> simp [headDigit]

/-- The scan returns the value of the first `$`-digit occurrence: a `$`
followed by a maximal nonempty digit block, with no `$`-digit occurrence
before it. -/
theorem firstDollarNat_spec (ds rest : List Char) :
    ∀ pre : List Char,
    ds ≠ [] → (∀ c ∈ ds, c.isDigit) →
    hasDollarDigit (pre ++ ['$']) = false →
    (∀ c ∈ rest.take 1, ¬ c.isDigit) →
    firstDollarNat (pre ++ '$' :: (ds ++ rest)) = some (digitsToNat ds) := by
  intro pre
  induction pre with
  | nil =>
    intro hds hdig _ hrest
    cases ds with
    | nil => exact absurd rfl hds
    | cons d ds2 =>
      have hd : d.isDigit := hdig d (by simp)
      have htake : takeDigits ((d :: ds2) ++ rest) = d :: ds2 :=
        takeDigits_append_of_digits (d :: ds2) rest hdig hrest
      simp only [List.nil_append, List.cons_append]
      simp only [List.cons_append] at htake
      simp [firstDollarNat, headDigit, hd, htake]
  | cons p pre ih =>
    intro hds hdig hpre hrest
    have hpre2 : (decide (p = '$') && headDigit (pre ++ ['$'])) = false ∧
        hasDollarDigit (pre ++ ['$']) = false := by
      have h := hpre
      simp only [List.cons_append, hasDollarDigit, Bool.or_eq_false_iff] at h
      exact h
    have hhead : headDigit (pre ++ '$' :: (ds ++ rest)) =
        headDigit (pre ++ ['$']) := by
      have := headDigit_append_cons pre '$' (ds ++ rest) []
      simpa using this
    have hguard : (decide (p = '$') && headDigit (pre ++ '$' :: (ds ++ rest))) = false := by
      rw [hhead]
      exact hpre2.1
    simp only [List.cons_append, firstDollarNat]
    rw [if_neg (by simp [hguard])]
    exact ih hds hdig hpre2.2 hrest

/-- On a list sorted descending by amount, `find?` returns a qualifying
element whose amount dominates every qualifying element of the list (this
is the downward threshold scan of `calculateMaxGiftSelections`, read on the
reversed list). -/
theorem find?_desc_spec (total : Nat) :
    ∀ r : List Threshold, r.Pairwise (fun a b => b.amount ≤ a.amount) →
    ∀ t : Threshold, r.find? (fun u => u.amount ≤ total) = some t →
    t ∈ r ∧ t.amount ≤ total ∧
      ∀ v ∈ r, v.amount ≤ total → v.amount ≤ t.amount := by
  intro r
  induction r with
  | nil => intro _ t ht; simp at ht
  | cons x xs ih =>
    intro hp t ht
    rcases List.pairwise_cons.mp hp with ⟨hx, hxs⟩
    by_cases hq : x.amount ≤ total
    · rw [List.find?_cons_of_pos _ (by simpa using hq)] at ht
      obtain rfl : x = t := by simpa using ht
      refine ⟨List.mem_cons_self x xs, hq, ?_⟩
      intro v hv _
      rcases List.mem_cons.mp hv with rfl | hv2
      · exact Nat.le_refl _
      · exact hx v hv2
    · rw [List.find?_cons_of_neg _ (by simpa using hq)] at ht
      obtain ⟨ht1, ht2, ht3⟩ := ih hxs t ht
      refine ⟨List.mem_cons_of_mem x ht1, ht2, ?_⟩
      intro v hv hvle
      rcases List.mem_cons.mp hv with rfl | hv2
      · exact absurd hvle hq
      · exact ht3 v hv2 hvle

/-- A segment is malformed in the sense of the claim: it matches neither
the `滿`-marked pattern nor the bare `integer*integer` pattern, or the
matched integers are not both strictly positive. -/
def badSegment (seg : List Char) : Prop :=
  segMatch seg = none ∨ ∃ a g, segMatch seg = some (a, g) ∧ ¬(0 < a ∧ 0 < g)

/-! ## Claim theorems -/

/-- C3: the enforcement step leaves a selection list of length at most the
maximum unchanged, and otherwise replaces it with exactly its first
`maxAllowed` entries (`take`, which preserves the original selection
order); in particular `["A", "B", "C"]` with maximum 1 becomes `["A"]`. -/
theorem enforce_c3 :
    (∀ (s : List String) (m : Nat), s.length ≤ m → enforceGiftSelections s m = s) ∧
    (∀ (s : List String) (m : Nat), m < s.length →
      enforceGiftSelections s m = s.take m ∧
      (enforceGiftSelections s m).length = m) ∧
    enforceGiftSelections ["A", "B", "C"] 1 = ["A"] := by
  refine ⟨?_, ?_, by decide⟩
  · intro s m h
    simp [enforceGiftSelections, Nat.not_lt.mpr h]
  · intro s m h
    refine ⟨by simp [enforceGiftSelections, h], ?_⟩
    simp [enforceGiftSelections, h, Nat.min_eq_left (Nat.le_of_lt h)]

/-- Witness for C3 at concrete inputs. -/
theorem enforce_c3_witness :
    ((["A", "B"] : List String).length ≤ 5 ∧
      enforceGiftSelections ["A", "B"] 5 = ["A", "B"]) ∧
    (1 < (["A", "B", "C"] : List String).length ∧
      enforceGiftSelections ["A", "B", "C"] 1 = (["A", "B", "C"] : List String).take 1) :=
  ⟨⟨by decide, enforce_c3.1 ["A", "B"] 5 (by decide)⟩,
   ⟨by decide, (enforce_c3.2.1 ["A", "B", "C"] 1 (by decide)).1⟩⟩

/-- C10: the enforcement trim step is idempotent. -/
theorem enforce_c10 : ∀ (s : List String) (m : Nat),
    enforceGiftSelections (enforceGiftSelections s m) m = enforceGiftSelections s m := by
  intro s m
  by_cases h : m < s.length
  · have hlen : (enforceGiftSelections s m).length = m := by
      simp [enforceGiftSelections, h, Nat.min_eq_left (Nat.le_of_lt h)]
    simp [enforceGiftSelections, hlen, h]
  · simp [enforceGiftSelections, h]

/-- C8: the order total aggregator is deterministic — it is a pure function
of the answer set and the static context, so two computations over the same
inputs yield the same total. -/
theorem total_c8 : ∀ (ctx : AggContext) (answers : List (String × FieldValue)),
    totalExcludingGift ctx answers = totalExcludingGift ctx answers :=
  fun _ _ => rfl

/-- C9: a field whose identifier does not match the
`question_<id>` pattern (with optional row/column tail) contributes nothing
and does not abort the total over the remaining fields. -/
theorem total_c9 : ∀ fieldName : String, parsedQuestionId fieldName = none →
    ∀ (ctx : AggContext) (v : FieldValue) (pre post : List (String × FieldValue)),
      fieldContrib ctx fieldName v = 0 ∧
      totalExcludingGift ctx (pre ++ (fieldName, v) :: post) =
        totalExcludingGift ctx (pre ++ post) := by
  intro fieldName h ctx v pre post
  have hz : fieldContrib ctx fieldName v = 0 := by
    simp [fieldContrib, h]
  exact ⟨hz, totalExcludingGift_erase_zero ctx pre post (fieldName, v) hz⟩

/-- Witness for C9: a malformed identifier at a concrete answer set. -/
theorem total_c9_witness :
    parsedQuestionId "customer_note" = none ∧
    totalExcludingGift demoCtx [("customer_note", FieldValue.str "hello")] =
      totalExcludingGift demoCtx [] :=
  ⟨by decide,
   (total_c9 "customer_note" (by decide) demoCtx (FieldValue.str "hello") [] []).2⟩

/-- C2 (amended): an answered field whose parsed question id is one of the
gift-section question ids contributes zero to the total — the aggregator
skips it before any price lookup — even though the id itself may appear in
the question-id-to-price index. -/
theorem giftSkip_c2 : ∀ (ctx : AggContext) (fieldName qid : String)
    (v : FieldValue) (pre post : List (String × FieldValue)),
    parsedQuestionId fieldName = some qid →
    ctx.firstGift = some qid ∨ ctx.secondGift = some qid →
    fieldContrib ctx fieldName v = 0 ∧
    totalExcludingGift ctx (pre ++ (fieldName, v) :: post) =
      totalExcludingGift ctx (pre ++ post) := by
  intro ctx fieldName qid v pre post hpid hgift
  have hz : fieldContrib ctx fieldName v = 0 := by
    simp [fieldContrib, hpid, hgift]
  exact ⟨hz, totalExcludingGift_erase_zero ctx pre post (fieldName, v) hz⟩

/-- Witness for C2 at a concrete gift-section answer. -/
theorem giftSkip_c2_witness :
    parsedQuestionId "question_g1" = some "g1" ∧
    totalExcludingGift demoCtx [("question_g1", FieldValue.arr ["gift A"])] =
      totalExcludingGift demoCtx [] :=
  ⟨by decide,
   (giftSkip_c2 demoCtx "question_g1" "g1" (FieldValue.arr ["gift A"]) [] []
     (by decide) (Or.inl (by decide))).2⟩

/-- C2 counterexample: the claim says the gift section's question id is
excluded from the question-id-to-price lookup index, but
`questionPriceMap` is built from every item whose title carries a price,
gift sections included — for this schema the gift id `g1` is present in the
index with price 500. -/
theorem giftSkip_c2_counterexample :
    firstGiftQuestionId giftDemoItems = some "g1" ∧
    questionPriceLookup giftDemoItems "g1" = some 500 ∧
    ¬ questionPriceLookup giftDemoItems "g1" = none := by
  refine ⟨by decide, by decide, by decide⟩

/-- The list-value rule exactly as the claim states it (for comparison with
the code): only entries that are non-empty and different from the literal
string `"false"` are priced. -/
def claimListContrib (qPrice : Option Nat) (oPrice : String → Option Nat)
    (l : List String) : Nat :=
  (l.map (fun v =>
    if v ≠ "" && v ≠ "false" then perValuePrice qPrice oPrice v else 0)).sum

/-- C4 counterexample: the aggregator has no `"false"` filter — a list
entry that is the literal string `"false"` under a question priced 100
contributes 100, while the claim's rule makes it contribute nothing. -/
theorem listRule_c4_counterexample :
    totalExcludingGift
      ⟨fun q => if q = "q1" then some 100 else none, fun _ => none, none, none⟩
      [("question_q1", FieldValue.arr ["false"])] = 100 ∧
    claimListContrib (some 100) (fun _ => none) ["false"] = 0 := by
  refine ⟨by decide, by decide⟩

/-- C4 (amended): for an answered non-gift field whose value is a list, each
entry with at least one non-whitespace character adds exactly its per-value
price (option-price-index price of the entry if present, else the
question-level price if present, else zero), and every other entry (empty
or whitespace-only) adds nothing; the literal string `"false"` is not
special-cased. -/
theorem listRule_c4 : ∀ (ctx : AggContext) (fieldName qid : String)
    (l₁ l₂ : List String) (v : String),
    parsedQuestionId fieldName = some qid →
    ¬(ctx.firstGift = some qid ∨ ctx.secondGift = some qid) →
    (hasNonSpace v = false →
      fieldContrib ctx fieldName (FieldValue.arr (l₁ ++ v :: l₂)) =
        fieldContrib ctx fieldName (FieldValue.arr (l₁ ++ l₂))) ∧
    (hasNonSpace v = true →
      fieldContrib ctx fieldName (FieldValue.arr (l₁ ++ v :: l₂)) =
        fieldContrib ctx fieldName (FieldValue.arr (l₁ ++ l₂)) +
          perValuePrice (ctx.qPrice qid) ctx.oPrice v) := by
  intro ctx fieldName qid l₁ l₂ v hpid hgift
  constructor
  · intro hv
    simp [fieldContrib, hpid, hgift, valueContrib, hv]
  · intro hv
    simp [fieldContrib, hpid, hgift, valueContrib, hv]
    omega

/-- C1: for a threshold list sorted ascending by amount,
`calculateMaxGiftSelections` returns the gift count of the highest
threshold whose amount is at most the total (and the amount of the returned
threshold dominates every qualifying entry), and returns 0 when no
threshold qualifies or the list is empty; in particular 0, 1 and 2 on the
specification's examples. -/
theorem maxSelections_c1 :
    (∀ (total : Nat) (ths : List Threshold), ths.Pairwise amountLE →
      ((∀ t ∈ ths, total < t.amount) →
        calculateMaxGiftSelections total ths = 0) ∧
      (∀ t ∈ ths, t.amount ≤ total →
        ∃ u, u ∈ ths ∧ u.amount ≤ total ∧
          calculateMaxGiftSelections total ths = u.gifts ∧
          ∀ v ∈ ths, v.amount ≤ total → v.amount ≤ u.amount)) ∧
    (∀ total : Nat, calculateMaxGiftSelections total [] = 0) ∧
    calculateMaxGiftSelections 0 demoThresholds = 0 ∧
    calculateMaxGiftSelections 2500 demoThresholds = 1 ∧
    calculateMaxGiftSelections 6000 demoThresholds = 2 := by
  refine ⟨?_, fun total => rfl, by decide, by decide, by decide⟩
  intro total ths hsorted
  constructor
  · intro hnone
    have hfind : ths.reverse.find? (fun t => t.amount ≤ total) = none := by
      rw [List.find?_eq_none]
      intro x hx
      simp only [decide_eq_true_eq, Nat.not_le]
      exact hnone x (List.mem_reverse.mp hx)
    simp [calculateMaxGiftSelections, hfind]
  · intro t ht hle
    have hne : ths.isEmpty = false := by
      cases ths with
      | nil => exact absurd ht (by simp)
      | cons a l => rfl
    have hrev : t ∈ ths.reverse := List.mem_reverse.mpr ht
    obtain ⟨u, hu⟩ :
        ∃ u, ths.reverse.find? (fun v => v.amount ≤ total) = some u := by
      cases hcase : ths.reverse.find? (fun v => v.amount ≤ total) with
      | some u => exact ⟨u, rfl⟩
      | none =>
        exfalso
        have := List.find?_eq_none.mp hcase t hrev
        simp [hle] at this
    have hdesc : ths.reverse.Pairwise (fun a b => b.amount ≤ a.amount) :=
      List.pairwise_reverse.mpr (by simpa [amountLE] using hsorted)
    obtain ⟨hmem, hule, hmax⟩ := find?_desc_spec total ths.reverse hdesc u hu
    refine ⟨u, List.mem_reverse.mp hmem, hule, ?_, ?_⟩
    · simp [calculateMaxGiftSelections, hne, hu]
    · intro v hv hvle
      exact hmax v (List.mem_reverse.mpr hv) hvle

/-- Witness for C1: the demo threshold list is sorted, a total below every
threshold yields 0, and a total of 6000 yields the 5000-tier count. -/
theorem maxSelections_c1_witness :
    demoThresholds.Pairwise amountLE ∧
    calculateMaxGiftSelections 100 demoThresholds = 0 ∧
    ∃ u, u ∈ demoThresholds ∧ u.amount ≤ 6000 ∧
      calculateMaxGiftSelections 6000 demoThresholds = u.gifts ∧
      ∀ v ∈ demoThresholds, v.amount ≤ 6000 → v.amount ≤ u.amount := by
  have hs : demoThresholds.Pairwise amountLE := by decide
  exact ⟨hs, (maxSelections_c1.1 100 demoThresholds hs).1 (by decide),
    (maxSelections_c1.1 6000 demoThresholds hs).2 ⟨5000, 2⟩ (by decide) (by decide)⟩

/-- C5: `getThresholds` returns the parsed pairs of the label (a
permutation of the collected segment matches) sorted ascending by amount,
with pairs of equal amount kept in their original relative order
(stability, stated as equality of the per-amount filtered subsequences),
and returns `[]` for absent or empty-string input. -/
theorem thresholds_c5 :
    getThresholds none = [] ∧
    getThresholds (some "") = [] ∧
    ∀ s : String,
      (getThresholds (some s)).Perm ((splitOnSeps s.data).filterMap parseSegment) ∧
      (getThresholds (some s)).Pairwise amountLE ∧
      ∀ a : Nat,
        (getThresholds (some s)).filter (fun t => t.amount == a) =
          ((splitOnSeps s.data).filterMap parseSegment).filter
            (fun t => t.amount == a) := by
  refine ⟨rfl, by decide, ?_⟩
  intro s
  by_cases hs : s = ""
  · subst hs
    have h1 : getThresholds (some "") = [] := by decide
    have h2 : (splitOnSeps ("" : String).data).filterMap parseSegment = [] := by
      decide
    rw [h1, h2]
    exact ⟨List.Perm.refl [], List.Pairwise.nil, fun a => rfl⟩
  · have h : getThresholds (some s) =
        sortPairs ((splitOnSeps s.data).filterMap parseSegment) := by
      simp [getThresholds, hs, thresholdsOfParts]
    rw [h]
    exact ⟨sortPairs_perm _, sortPairs_pairwise _, fun a => sortPairs_filter _ a⟩

/-- C6: a segment that matches neither pattern, or whose matched integers
are not both strictly positive, contributes nothing to the result (and no
error is raised — parsing is total); in particular the label
`滿2500*1、invalid、5000*2、滿*3` yields `[{2500,1},{5000,2}]`. -/
theorem thresholds_c6 :
    (∀ seg : List Char, badSegment seg → parseSegment seg = none) ∧
    (∀ (ps₁ ps₂ : List (List Char)) (seg : List Char), parseSegment seg = none →
      thresholdsOfParts (ps₁ ++ seg :: ps₂) = thresholdsOfParts (ps₁ ++ ps₂)) ∧
    getThresholds (some "滿2500*1、invalid、5000*2、滿*3") =
      [⟨2500, 1⟩, ⟨5000, 2⟩] := by
  refine ⟨?_, ?_, by decide⟩
  · intro seg h
    rcases h with h | ⟨a, g, hm, hpos⟩
    · simp [parseSegment, h]
    · simp [parseSegment, hm, decide_eq_true_eq]
      omega
  · intro ps₁ ps₂ seg h
    simp [thresholdsOfParts, List.filterMap_append, List.filterMap_cons, h]

/-- Witness for C6: the malformed segment `invalid` parses to nothing, and
dropping it from a part list leaves the parsed thresholds unchanged. -/
theorem thresholds_c6_witness :
    parseSegment "invalid".data = none ∧
    thresholdsOfParts ["滿2500*1".data, "invalid".data] =
      thresholdsOfParts ["滿2500*1".data] := by
  have h1 : parseSegment "invalid".data = none :=
    thresholds_c6.1 "invalid".data (Or.inl (by decide))
  exact ⟨h1, thresholds_c6.2.1 ["滿2500*1".data] [] "invalid".data h1⟩

/-- C7: `extractPrice` returns `none` for an absent label or a label with
no `$`-digits substring, and for a label that decomposes as a prefix with
no `$`-digit occurrence, a `$`, a maximal nonempty digit block and a rest,
it returns the integer value of that first digit block; in particular
`extractPrice("$380 item $500") = 380`. -/
theorem extractPrice_c7 :
    extractPrice none = none ∧
    (∀ s : String, hasDollarDigit s.data = false → extractPrice (some s) = none) ∧
    (∀ (s : String) (pre ds rest : List Char),
      s.data = pre ++ '$' :: (ds ++ rest) →
      ds ≠ [] → (∀ c ∈ ds, c.isDigit) →
      hasDollarDigit (pre ++ ['$']) = false →
      (∀ c ∈ rest.take 1, ¬ c.isDigit) →
      extractPrice (some s) = some (digitsToNat ds)) ∧
    extractPrice (some "$380 item $500") = some 380 := by
  refine ⟨rfl, ?_, ?_, by decide⟩
  · intro s h
    by_cases hs : s = ""
    · simp [extractPrice, hs]
    · simp [extractPrice, hs, firstDollarNat_eq_none s.data h]
  · intro s pre ds rest hdata hds hdig hpre hrest
    have hs : s ≠ "" := by
      intro h
      have hnil : ([] : List Char) = pre ++ '$' :: (ds ++ rest) := by
        rw [← hdata, h]
      exact absurd hnil.symm (by simp)
    simp only [extractPrice, if_neg hs]
    rw [hdata]
    exact firstDollarNat_spec ds rest pre hds hdig hpre hrest

/-- Witness for C7 at the specification's example label and at a label with
no price. -/
theorem extractPrice_c7_witness :
    hasDollarDigit "no price here".data = false ∧
    extractPrice (some "no price here") = none ∧
    "$380 item $500".data = [] ++ '$' :: (['3', '8', '0'] ++ " item $500".data) ∧
    extractPrice (some "$380 item $500") = some (digitsToNat ['3', '8', '0']) :=
  ⟨by decide, extractPrice_c7.2.1 "no price here" (by decide), by decide,
   extractPrice_c7.2.2.1 "$380 item $500" [] ['3', '8', '0'] " item $500".data
     (by decide) (by decide) (by decide) (by decide) (by decide)⟩

/-- Witness for C4: a priced option label inserted into a list adds its own
price. -/
theorem listRule_c4_witness :
    parsedQuestionId "question_q1" = some "q1" ∧
    hasNonSpace "$250 pendant" = true ∧
    fieldContrib demoCtx "question_q1" (FieldValue.arr ["$250 pendant"]) =
      fieldContrib demoCtx "question_q1" (FieldValue.arr []) +
        perValuePrice (demoCtx.qPrice "q1") demoCtx.oPrice "$250 pendant" :=
  ⟨by decide, by decide,
   (listRule_c4 demoCtx "question_q1" "q1" [] [] "$250 pendant"
     (by decide) (by decide)).2 (by decide)⟩

end Purensol
